import Mathlib

/-!
Verification of the sliding-window rate limiter in `ratelimitcache.py`.

The module is embedded shallowly:
* wall-clock instants are natural numbers counting whole minutes since
  0001-01-01 00:00 of the proleptic Gregorian calendar (the calendar used
  by Python `datetime`), and `strftime(%Y%m%d%H%M)` becomes `fmtMinute`;
* the cache backend becomes an explicit state `Store` mapping keys to
  `(value, expirySeconds)` pairs, together with a log of the cache
  operations issued during one request;
* `hashlib.sha1(...).hexdigest()` is an uninterpreted parameter
  `sha1hex : String -> String` of the key-derivation functions;
* the decorator machinery disappears: `view_wrapper` takes the request,
  the store and the instant and returns the decision (`Allow` = the
  wrapped view is invoked, `Deny` = HttpResponseForbidden), the new store
  and the operation log.
-/

namespace Ratelimitcache

/-! ## Calendar: minutes since 0001-01-01 00:00, formatted as %Y%m%d%H%M -/

/-- Gregorian leap-year rule, as used by Python `datetime`. -/
def isLeap (y : Nat) : Bool :=
  (y % 4 == 0 && !(y % 100 == 0)) || y % 400 == 0

/-- Number of days of year `y`. -/
def daysInYear (y : Nat) : Nat := if isLeap y then 366 else 365

/-- Lengths of the twelve months of year `y`. -/
def monthLengths (y : Nat) : List Nat :=
  [31, if isLeap y then 29 else 28, 31, 30, 31, 30, 31, 31, 30, 31, 30, 31]

/-- Peel whole years off a day count, starting at year `y`.
The fuel argument only makes the recursion structural; any fuel above the
day count gives the same answer. -/
def yearFromDaysAux : Nat → Nat → Nat → Nat × Nat
  | 0, y, d => (y, d)
  | fuel + 1, y, d =>
    if d < daysInYear y then (y, d)
    else yearFromDaysAux fuel (y + 1) (d - daysInYear y)

/-- `(year, dayOfYear)` of day number `d` counted from the start of year `y`. -/
def yearFromDays (y d : Nat) : Nat × Nat := yearFromDaysAux (d + 1) y d

/-- Peel months off a day-of-year: `(month, dayOfMonth0)` where the month
counter starts at `m` and the returned day is 0-based. -/
def monthFromDoy : List Nat → Nat → Nat → Nat × Nat
  | [], m, d => (m, d)
  | l :: ls, m, d => if d < l then (m, d) else monthFromDoy ls (m + 1) (d - l)

/-- Zero-padded fixed-width decimal rendering of `n` (width `w`). -/
def padDec : Nat → Nat → List Char
  | 0, _ => []
  | w + 1, n => padDec w (n / 10) ++ [Nat.digitChar (n % 10)]

/-- `datetime.strftime(%Y%m%d%H%M)` of the instant `t` minutes after
0001-01-01 00:00. -/
def fmtMinute (t : Nat) : String :=
  let yd := yearFromDays 1 (t / 1440)
  let md := monthFromDoy (monthLengths yd.1) 1 yd.2
  String.mk (padDec 4 yd.1 ++ padDec 2 md.1 ++ padDec 2 (md.2 + 1) ++
    padDec 2 (t % 1440 / 60) ++ padDec 2 (t % 60))

/-- The calendar year of instant `t`. -/
def yearOf (t : Nat) : Nat := (yearFromDays 1 (t / 1440)).1

/-- Days elapsed from the start of year 1 to the start of year `y`
(0 for years 0 and 1); used only to invert `yearFromDays`. -/
def daysFrom1 : Nat → Nat
  | 0 => 0
  | 1 => 0
  | y + 2 => daysFrom1 (y + 1) + daysInYear (y + 1)

/-! ## Requests, cache state, decisions -/

/-- The request attributes the module inspects: HTTP method,
`META['REMOTE_ADDR']`, and the POST form data (an association list). -/
structure Request where
  method : String
  remoteAddr : Option String
  postData : List (String × String)
deriving DecidableEq

/-- The cache backend state: each present key carries its counter value and
the expiry (in seconds) it was created or last set with. -/
def Store : Type := String → Option (Nat × Nat)

/-- The empty cache. -/
def emptyStore : Store := fun _ => none

/-- Outcome of one wrapped call: `Allow` means the wrapped view function is
invoked, `Deny` means the `HttpResponseForbidden` rate-limit rejection. -/
inductive Decision where
  | Allow : Decision
  | Deny : Decision
deriving DecidableEq

/-- Cache operations issued by the limiter, in order.  `add` and `set`
record the expiry (seconds) passed to the backend. -/
inductive CacheOp where
  | getMany : List String → CacheOp
  | add : String → Nat → CacheOp
  | incr : String → CacheOp
  | get : String → CacheOp
  | set : String → Nat → Nat → CacheOp
deriving DecidableEq

/-! ## The `ratelimit` class

Subclass-based overriding (`should_ratelimit`, `key_extra`) is embedded as
function-valued fields whose defaults are the base-class methods; the class
attribute defaults `minutes = 2`, `requests = 20`, `prefix = 'ratelimit-'`
become field defaults.  `atomicBackend` selects which branch of
`cache_incr`'s try/except runs: `true` is the memcache add/incr path,
`false` the `cache.set(key, cache.get(key, 0) + 1, ...)` fallback. -/
structure Ratelimit where
  minutes : Nat := 2
  requests : Nat := 20
  pfx : String := "ratelimit-"
  atomicBackend : Bool := true
  should_ratelimit : Request → Bool := fun _ => true
  key_extra : Request → String := fun r => (r.remoteAddr).getD ""

/-- `expire_after`: `(self.minutes + 1) * 60`. -/
def Ratelimit.expire_after (rl : Ratelimit) : Nat := (rl.minutes + 1) * 60

/-- One bucket key: `'%s%s-%s' % (prefix, extra, strftime(%Y%m%d%H%M))`. -/
def mkKey (pfx extra : String) (t : Nat) : String :=
  pfx ++ extra ++ "-" ++ fmtMinute t

/-- `keys_to_check`: one key per `minute in range(self.minutes)`, each for
`now - timedelta(minutes=minute)`. -/
def keys_to_check (rl : Ratelimit) (r : Request) (t : Nat) : List String :=
  (List.range rl.minutes).map (fun m => mkKey rl.pfx (rl.key_extra r) (t - m))

/-- `current_key`: the bucket key of the current minute. -/
def current_key (rl : Ratelimit) (r : Request) (t : Nat) : String :=
  mkKey rl.pfx (rl.key_extra r) t

/-- `sum(int(x) for x in self.get_counters(request).values())`: the sum of
the counters stored under the (deduplicated, as `get_many` returns a dict)
window keys.  Missing keys contribute nothing. -/
def windowTotal (rl : Ratelimit) (r : Request) (store : Store) (t : Nat) : Nat :=
  (((keys_to_check rl r t).dedup).filterMap (fun k => (store k).map (fun p => p.1))).sum

/-- `cache_incr`, with the backend flag and expiry made explicit.
Atomic path: `add(key, '0', time=expire)` (a no-op when the key exists,
otherwise it creates the key with value 0 and the given expiry) followed by
`incr(key)` (which keeps the stored expiry).  Fallback path:
`set(key, get(key, 0) + 1, expire)`, which stamps the expiry anew. -/
def cache_incr_core (atomic : Bool) (expire : Nat) (key : String) (store : Store) :
    Store × List CacheOp :=
  if atomic then
    (fun k => if k = key then
        some (((store key).map (fun p => (p.1 + 1, p.2))).getD (1, expire))
      else store k,
     [CacheOp.add key expire, CacheOp.incr key])
  else
    (fun k => if k = key then
        some (((store key).map (fun p => p.1)).getD 0 + 1, expire)
      else store k,
     [CacheOp.get key, CacheOp.set key (((store key).map (fun p => p.1)).getD 0 + 1) expire])

/-- `self.cache_incr(key)`. -/
def cache_incr (rl : Ratelimit) (key : String) (store : Store) : Store × List CacheOp :=
  cache_incr_core rl.atomicBackend rl.expire_after key store

/-- `view_wrapper`: the whole per-request flow.  The counters are fetched
(eagerly — the generator expression's outermost iterable is evaluated at
creation) before the increment, so the total reflects the pre-increment
state; the increment happens before the comparison, on both outcomes. -/
def view_wrapper (rl : Ratelimit) (r : Request) (store : Store) (t : Nat) :
    Decision × Store × List CacheOp :=
  if rl.should_ratelimit r = true then
    let total := windowTotal rl r store t
    let res := cache_incr rl (current_key rl r t) store
    if rl.requests ≤ total then
      (Decision.Deny, res.1, CacheOp.getMany (keys_to_check rl r t) :: res.2)
    else
      (Decision.Allow, res.1, CacheOp.getMany (keys_to_check rl r t) :: res.2)
  else
    (Decision.Allow, store, [])

/-- The store after `k` identical applicable requests (same request, same
minute), starting from the empty cache. -/
def storeAfter (rl : Ratelimit) (r : Request) (t : Nat) : Nat → Store
  | 0 => emptyStore
  | k + 1 => (view_wrapper rl r (storeAfter rl r t k) t).2.1

/-- Decision served to the `k`-th (1-indexed) of a run of identical
requests within one minute, starting from the empty cache. -/
def nthDecision (rl : Ratelimit) (r : Request) (t : Nat) (k : Nat) : Decision :=
  (view_wrapper rl r (storeAfter rl r t (k - 1)) t).1

/-- The expiry arguments of the write operations (`add`/`set`) in a log. -/
def writeExpiries (ops : List CacheOp) : List Nat :=
  ops.filterMap (fun op => match op with
    | CacheOp.add _ e => some e
    | CacheOp.set _ _ e => some e
    | _ => none)

/-! ## Construction (`__init__`) -/

/-- The keyword options `ratelimit(**options)` understands in the base
class; `none` means the option was not passed. -/
structure Options where
  minutes : Option Nat := none
  requests : Option Nat := none
  pfx : Option String := none

/-- `__init__`: each passed option overrides the class-attribute default by
`setattr`; nothing is validated and construction never fails. -/
def ratelimit_init (opts : Options) : Ratelimit :=
  { minutes := (opts.minutes).getD 2,
    requests := (opts.requests).getD 20,
    pfx := (opts.pfx).getD "ratelimit-" }

/-! ## `ratelimit_post` -/

/-- `ratelimit_post.should_ratelimit`: only POSTs are limited. -/
def should_ratelimit_post (r : Request) : Bool := r.method == "POST"

/-- `ratelimit_post.key_extra`: the remote address, extended — whenever
`self.key_field` is set (Python truthiness: `None` and `''` are falsy) —
by `'-' + sha1(request.POST.get(key_field, '')).hexdigest()`.
`sha1hex` abstracts `hashlib.sha1(value.encode('utf-8')).hexdigest()`. -/
def key_extra_post (key_field : Option String) (sha1hex : String → String)
    (r : Request) : String :=
  (r.remoteAddr).getD "" ++
    (match key_field with
     | none => ""
     | some f =>
       if f = "" then ""
       else "-" ++ sha1hex (((r.postData).lookup f).getD ""))

/-- A `ratelimit_post(minutes=..., requests=..., key_field=...)` instance. -/
def ratelimit_post_mk (minutes requests : Nat) (key_field : Option String)
    (sha1hex : String → String) : Ratelimit :=
  { minutes := minutes, requests := requests,
    should_ratelimit := should_ratelimit_post,
    key_extra := key_extra_post key_field sha1hex }

/-! ## `ratelimit_post_noip`

Its `key_extra` evaluates `sha.new(...)`, but no module named `sha` is
imported (only `hashlib` is), so whenever `key_field` is truthy the lookup
of the name `sha` raises `NameError`.  Exceptions are made explicit with
`Except String`. -/

/-- `ratelimit_post_noip.key_extra`. -/
def key_extra_noip (key_field : Option String) (_r : Request) :
    Except String String :=
  match key_field with
  | none => Except.ok ""
  | some f =>
    if f = "" then Except.ok ""
    else Except.error "NameError: name sha is not defined"

/-- `view_wrapper` as inherited by `ratelimit_post_noip`: the counter fetch
calls `keys_to_check`, which calls the raising `key_extra` first, so the
exception propagates before any cache access or increment. -/
def view_wrapper_noip (minutes requests : Nat) (pfx : String)
    (key_field : Option String) (atomic : Bool) (r : Request) (store : Store)
    (t : Nat) : Except String (Decision × Store × List CacheOp) :=
  if r.method == "POST" then
    match key_extra_noip key_field r with
    | Except.error e => Except.error e
    | Except.ok extra =>
      let keys := (List.range minutes).map (fun m => mkKey pfx extra (t - m))
      let total := ((keys.dedup).filterMap (fun k => (store k).map (fun p => p.1))).sum
      let res := cache_incr_core atomic ((minutes + 1) * 60) (mkKey pfx extra t) store
      if requests ≤ total then
        Except.ok (Decision.Deny, res.1, CacheOp.getMany keys :: res.2)
      else
        Except.ok (Decision.Allow, res.1, CacheOp.getMany keys :: res.2)
  else
    Except.ok (Decision.Allow, store, [])

/-! ## Concrete instances used by witnesses and counterexamples -/

/-- The spec example policy: `windowMinutes = 2`, `maxRequests = 20`. -/
def rlExample : Ratelimit := { minutes := 2, requests := 20 }

/-- A request from address 1.2.3.4 with no form data. -/
def reqExample : Request :=
  { method := "GET", remoteAddr := some "1.2.3.4", postData := [] }

/-- A POST request from address 1.2.3.4 carrying a username. -/
def reqPost : Request :=
  { method := "POST", remoteAddr := some "1.2.3.4",
    postData := [("username", "alice")] }

/-- `reqPost` with an extra unrelated form field. -/
def reqPost2 : Request :=
  { method := "POST", remoteAddr := some "1.2.3.4",
    postData := [("username", "alice"), ("csrf", "zzz")] }

/-- A POST request that does not carry the username field at all. -/
def reqPostMissing : Request :=
  { method := "POST", remoteAddr := some "1.2.3.4", postData := [] }

/-- A stand-in hash whose value on `""` is the real
`hashlib.sha1(b'').hexdigest()`. -/
def sha1Const : String → String :=
  fun _ => "da39a3ee5e6b4b0d3255bfef95601890afd80709"

/-! ## Calendar lemmas: `fmtMinute` is injective below year 10000 -/

theorem daysInYear_ge (y : Nat) : 365 ≤ daysInYear y := by
  unfold daysInYear; split <;> omega

theorem yearFromDaysAux_stable :
    ∀ f1 f2 y d, d < f1 → d < f2 → yearFromDaysAux f1 y d = yearFromDaysAux f2 y d := by
  intro f1
  induction f1 with
  | zero => intro f2 y d h1 _; omega
  | succ f ih =>
    intro f2 y d h1 h2
    cases f2 with
    | zero => omega
    | succ g =>
      simp only [yearFromDaysAux]
      by_cases hd : d < daysInYear y
      · simp [hd]
      · have hge := daysInYear_ge y
        simp only [hd, if_false]
        exact ih g (y + 1) (d - daysInYear y) (by omega) (by omega)

theorem yearFromDays_eq (y d : Nat) :
    yearFromDays y d = if d < daysInYear y then (y, d)
      else yearFromDays (y + 1) (d - daysInYear y) := by
  unfold yearFromDays
  by_cases hd : d < daysInYear y
  · simp [yearFromDaysAux, hd]
  · have hge := daysInYear_ge y
    simp only [yearFromDaysAux, hd, if_false]
    exact yearFromDaysAux_stable d (d - daysInYear y + 1) (y + 1) (d - daysInYear y)
      (by omega) (by omega)

theorem daysFrom1_succ (y : Nat) (h : 1 ≤ y) :
    daysFrom1 (y + 1) = daysFrom1 y + daysInYear y := by
  cases y with
  | zero => omega
  | succ z => rfl

theorem yearFromDays_spec :
    ∀ d y, 1 ≤ y →
      (yearFromDays y d).2 < daysInYear (yearFromDays y d).1 ∧
      daysFrom1 (yearFromDays y d).1 + (yearFromDays y d).2 = daysFrom1 y + d ∧
      y ≤ (yearFromDays y d).1 := by
  intro d
  induction d using Nat.strong_induction_on with
  | _ d ih =>
    intro y hy
    rw [yearFromDays_eq]
    by_cases hd : d < daysInYear y
    · simp [hd]
    · have hge := daysInYear_ge y
      simp only [hd, if_false]
      have hrec := ih (d - daysInYear y) (by omega) (y + 1) (by omega)
      have hsu := daysFrom1_succ y hy
      exact ⟨hrec.1, by omega, by omega⟩

theorem yearFromDays_fst_mono :
    ∀ d1 d2 y, d1 ≤ d2 → (yearFromDays y d1).1 ≤ (yearFromDays y d2).1 := by
  intro d1
  induction d1 using Nat.strong_induction_on with
  | _ d1 ih =>
    intro d2 y hle
    rw [yearFromDays_eq y d1, yearFromDays_eq y d2]
    have hge := daysInYear_ge y
    by_cases h1 : d1 < daysInYear y
    · simp only [h1, if_true]
      by_cases h2 : d2 < daysInYear y
      · simp [h2]
      · simp only [h2, if_false]
        have := (yearFromDays_spec (d2 - daysInYear y) (y + 1) (by omega)).2.2
        show y ≤ (yearFromDays (y + 1) (d2 - daysInYear y)).1
        omega
    · have h2 : ¬ d2 < daysInYear y := by omega
      simp only [h1, h2, if_false]
      exact ih (d1 - daysInYear y) (by omega) (d2 - daysInYear y) (y + 1) (by omega)

theorem yearOf_mono (t1 t2 : Nat) (h : t1 ≤ t2) : yearOf t1 ≤ yearOf t2 := by
  unfold yearOf
  exact yearFromDays_fst_mono _ _ _ (Nat.div_le_div_right h)

theorem monthFromDoy_spec :
    ∀ (lens : List Nat) (m d : Nat),
      m ≤ (monthFromDoy lens m d).1 ∧
      ((lens.take ((monthFromDoy lens m d).1 - m)).sum + (monthFromDoy lens m d).2 = d) ∧
      (monthFromDoy lens m d).1 - m ≤ lens.length := by
  intro lens
  induction lens with
  | nil => intro m d; simp [monthFromDoy]
  | cons l ls ih =>
    intro m d
    simp only [monthFromDoy]
    by_cases hd : d < l
    · simp [hd]
    · simp only [hd, if_false]
      obtain ⟨h1, h2, h3⟩ := ih (m + 1) (d - l)
      refine ⟨by omega, ?_, by simp only [List.length_cons]; omega⟩
      have hk : (monthFromDoy ls (m + 1) (d - l)).1 - m =
          ((monthFromDoy ls (m + 1) (d - l)).1 - (m + 1)) + 1 := by omega
      rw [hk, List.take_succ_cons, List.sum_cons]
      omega

theorem monthFromDoy_snd_lt :
    ∀ (lens : List Nat) (m d : Nat),
      (∀ x ∈ lens, x ≤ 31) → d < lens.sum → (monthFromDoy lens m d).2 < 31 := by
  intro lens
  induction lens with
  | nil => intro m d _ h; simp at h
  | cons l ls ih =>
    intro m d hx hd
    simp only [monthFromDoy]
    by_cases h : d < l
    · simp only [h, if_true]
      have : l ≤ 31 := hx l (List.mem_cons_self l ls)
      show d < 31
      omega
    · simp only [h, if_false]
      refine ih (m + 1) (d - l) (fun x hx2 => hx x (List.mem_cons_of_mem l hx2)) ?_
      rw [List.sum_cons] at hd
      omega

theorem monthLengths_sum (y : Nat) : (monthLengths y).sum = daysInYear y := by
  unfold monthLengths daysInYear
  cases h : isLeap y <;> simp [h]

theorem monthLengths_le31 (y : Nat) : ∀ x ∈ monthLengths y, x ≤ 31 := by
  intro x hx
  unfold monthLengths at hx
  cases h : isLeap y <;> rw [h] at hx <;> simp at hx <;> omega

theorem padDec_length : ∀ (w n : Nat), (padDec w n).length = w := by
  intro w
  induction w with
  | zero => intro n; rfl
  | succ w ih => intro n; simp [padDec, ih]

theorem digitChar_inj10 :
    ∀ a, a < 10 → ∀ b, b < 10 → Nat.digitChar a = Nat.digitChar b → a = b := by decide

theorem padDec_inj :
    ∀ (w n m : Nat), n < 10 ^ w → m < 10 ^ w → padDec w n = padDec w m → n = m := by
  intro w
  induction w with
  | zero =>
    intro n m hn hm _
    simp only [pow_zero, Nat.lt_one_iff] at hn hm
    omega
  | succ w ih =>
    intro n m hn hm heq
    simp only [padDec] at heq
    have hl := List.append_inj heq (by rw [padDec_length, padDec_length])
    have h1 : n / 10 = m / 10 := by
      refine ih _ _ ?_ ?_ hl.1
      · exact (Nat.div_lt_iff_lt_mul (by omega)).2 (by rw [pow_succ] at hn; omega)
      · exact (Nat.div_lt_iff_lt_mul (by omega)).2 (by rw [pow_succ] at hm; omega)
    have h2 : n % 10 = m % 10 := by
      have hc := hl.2
      simp only [List.cons.injEq, and_true] at hc
      exact digitChar_inj10 _ (Nat.mod_lt _ (by omega)) _ (Nat.mod_lt _ (by omega)) hc
    omega

theorem string_data_inj (s1 s2 : String) (h : s1.data = s2.data) : s1 = s2 := by
  cases s1; cases s2; exact congrArg String.mk h

theorem concat5_inj (a1 b1 c1 d1 e1 a2 b2 c2 d2 e2 : List Char)
    (la : a1.length = a2.length) (lb : b1.length = b2.length)
    (lc : c1.length = c2.length) (ld : d1.length = d2.length)
    (h : a1 ++ b1 ++ c1 ++ d1 ++ e1 = a2 ++ b2 ++ c2 ++ d2 ++ e2) :
    a1 = a2 ∧ b1 = b2 ∧ c1 = c2 ∧ d1 = d2 ∧ e1 = e2 := by
  have h4 := List.append_inj h
    (by simp only [List.length_append, la, lb, lc, ld])
  have h3 := List.append_inj h4.1
    (by simp only [List.length_append, la, lb, lc])
  have h2 := List.append_inj h3.1 (by simp only [List.length_append, la, lb])
  have h1 := List.append_inj h2.1 la
  exact ⟨h1.1, h1.2, h2.2, h3.2, h4.2⟩

theorem fmtMinute_inj (t1 t2 : Nat) (hy1 : yearOf t1 < 10000) (hy2 : yearOf t2 < 10000)
    (heq : fmtMinute t1 = fmtMinute t2) : t1 = t2 := by
  unfold fmtMinute at heq
  simp only [] at heq
  have hdata := congrArg String.data heq
  simp only [String.data] at hdata
  -- name the components
  have hys1 := yearFromDays_spec (t1 / 1440) 1 (le_refl 1)
  have hys2 := yearFromDays_spec (t2 / 1440) 1 (le_refl 1)
  have hms1 := monthFromDoy_spec (monthLengths (yearFromDays 1 (t1 / 1440)).1) 1
    (yearFromDays 1 (t1 / 1440)).2
  have hms2 := monthFromDoy_spec (monthLengths (yearFromDays 1 (t2 / 1440)).1) 1
    (yearFromDays 1 (t2 / 1440)).2
  have hsplit := concat5_inj _ _ _ _ _ _ _ _ _ _
    (by rw [padDec_length, padDec_length]) (by rw [padDec_length, padDec_length])
    (by rw [padDec_length, padDec_length]) (by rw [padDec_length, padDec_length]) hdata
  have hY : (yearFromDays 1 (t1 / 1440)).1 = (yearFromDays 1 (t2 / 1440)).1 :=
    padDec_inj 4 _ _ hy1 hy2 hsplit.1
  have hM : (monthFromDoy (monthLengths (yearFromDays 1 (t1 / 1440)).1) 1
        (yearFromDays 1 (t1 / 1440)).2).1 =
      (monthFromDoy (monthLengths (yearFromDays 1 (t2 / 1440)).1) 1
        (yearFromDays 1 (t2 / 1440)).2).1 := by
    refine padDec_inj 2 _ _ ?_ ?_ hsplit.2.1
    · have := hms1.2.2
      have hlen : (monthLengths (yearFromDays 1 (t1 / 1440)).1).length = 12 := rfl
      have := hms1.1
      omega
    · have := hms2.2.2
      have hlen : (monthLengths (yearFromDays 1 (t2 / 1440)).1).length = 12 := rfl
      have := hms2.1
      omega
  have hD : (monthFromDoy (monthLengths (yearFromDays 1 (t1 / 1440)).1) 1
        (yearFromDays 1 (t1 / 1440)).2).2 =
      (monthFromDoy (monthLengths (yearFromDays 1 (t2 / 1440)).1) 1
        (yearFromDays 1 (t2 / 1440)).2).2 := by
    have hlt1 : (monthFromDoy (monthLengths (yearFromDays 1 (t1 / 1440)).1) 1
        (yearFromDays 1 (t1 / 1440)).2).2 < 31 :=
      monthFromDoy_snd_lt _ 1 _ (monthLengths_le31 _)
        (by rw [monthLengths_sum]; exact hys1.1)
    have hlt2 : (monthFromDoy (monthLengths (yearFromDays 1 (t2 / 1440)).1) 1
        (yearFromDays 1 (t2 / 1440)).2).2 < 31 :=
      monthFromDoy_snd_lt _ 1 _ (monthLengths_le31 _)
        (by rw [monthLengths_sum]; exact hys2.1)
    have := padDec_inj 2 _ _ (by omega) (by omega) hsplit.2.2.1
    omega
  have hH : t1 % 1440 / 60 = t2 % 1440 / 60 :=
    padDec_inj 2 _ _ (by omega) (by omega) hsplit.2.2.2.1
  have hMi : t1 % 60 = t2 % 60 :=
    padDec_inj 2 _ _ (by omega) (by omega) hsplit.2.2.2.2
  -- recover the day-of-year, then the day count, then the instant
  have hdoy : (yearFromDays 1 (t1 / 1440)).2 = (yearFromDays 1 (t2 / 1440)).2 := by
    have e1 := hms1.2.1
    have e2 := hms2.2.1
    rw [hM, hD, hY] at e1
    omega
  have hdays : t1 / 1440 = t2 / 1440 := by
    have e1 := hys1.2.1
    have e2 := hys2.2.1
    rw [hY, hdoy] at e1
    omega
  omega

/-! ## Key and store lemmas -/

theorem mkKey_inj_t (p extra : String) (t1 t2 : Nat)
    (hy1 : yearOf t1 < 10000) (hy2 : yearOf t2 < 10000)
    (h : mkKey p extra t1 = mkKey p extra t2) : t1 = t2 := by
  apply fmtMinute_inj t1 t2 hy1 hy2
  unfold mkKey at h
  have hd := congrArg String.data h
  simp only [String.data_append] at hd
  exact string_data_inj _ _ (List.append_inj hd rfl).2

theorem current_key_mem (rl : Ratelimit) (r : Request) (t : Nat) (h : 1 ≤ rl.minutes) :
    current_key rl r t ∈ keys_to_check rl r t := by
  unfold current_key keys_to_check
  have h0 : (0 : Nat) ∈ List.range rl.minutes := List.mem_range.2 (by omega)
  have := List.mem_map_of_mem (fun m => mkKey rl.pfx (rl.key_extra r) (t - m)) h0
  simpa using this

theorem filterMap_ite_sum (l : List String) (ck : String) (v : Nat)
    (hn : l.Nodup) (hm : ck ∈ l) :
    (l.filterMap (fun x => if x = ck then some v else none)).sum = v := by
  induction l with
  | nil => simp at hm
  | cons a l ih =>
    rw [List.filterMap_cons]
    by_cases ha : a = ck
    · subst ha
      simp only [if_pos rfl]
      have hnotin : a ∉ l := (List.nodup_cons.1 hn).1
      have hnil : l.filterMap (fun x => if x = a then some v else none) = [] := by
        rw [List.filterMap_eq_nil_iff]
        intro x hx
        have hxa : ¬ x = a := fun e => hnotin (e ▸ hx)
        simp [hxa]
      simp [hnil]
    · simp only [if_neg ha]
      rcases List.mem_cons.1 hm with hh | hh
      · exact absurd hh.symm ha
      · exact ih (List.nodup_cons.1 hn).2 hh

theorem view_wrapper_store (rl : Ratelimit) (r : Request) (store : Store) (t : Nat)
    (happ : rl.should_ratelimit r = true) :
    (view_wrapper rl r store t).2.1 = (cache_incr rl (current_key rl r t) store).1 ∧
    (view_wrapper rl r store t).2.2 =
      CacheOp.getMany (keys_to_check rl r t) :: (cache_incr rl (current_key rl r t) store).2 ∧
    (view_wrapper rl r store t).1 =
      (if rl.requests ≤ windowTotal rl r store t then Decision.Deny else Decision.Allow) := by
  unfold view_wrapper
  rw [if_pos happ]
  by_cases h : rl.requests ≤ windowTotal rl r store t <;> simp [h]

theorem storeAfter_spec (rl : Ratelimit) (r : Request) (t : Nat)
    (happ : rl.should_ratelimit r = true) :
    ∀ k, storeAfter rl r t k = fun x =>
      if x = current_key rl r t then
        (if k = 0 then none else some (k, rl.expire_after))
      else none := by
  intro k
  induction k with
  | zero =>
    funext x
    simp [storeAfter, emptyStore]
  | succ k ih =>
    funext x
    show (view_wrapper rl r (storeAfter rl r t k) t).2.1 x = _
    rw [(view_wrapper_store rl r _ t happ).1, ih]
    unfold cache_incr cache_incr_core
    by_cases hb : rl.atomicBackend = true <;>
      by_cases hx : x = current_key rl r t <;>
        simp [hb, hx] <;> cases k <;> simp

theorem windowTotal_storeAfter (rl : Ratelimit) (r : Request) (t : Nat) (j : Nat)
    (happ : rl.should_ratelimit r = true) (hmin : 1 ≤ rl.minutes) :
    windowTotal rl r (storeAfter rl r t j) t = j := by
  unfold windowTotal
  rw [storeAfter_spec rl r t happ]
  have hck : current_key rl r t ∈ (keys_to_check rl r t).dedup :=
    List.mem_dedup.2 (current_key_mem rl r t hmin)
  cases j with
  | zero =>
    rw [List.filterMap_eq_nil_iff.2 (fun x _ => by by_cases hx : x = current_key rl r t <;> simp [hx])]
    rfl
  | succ j =>
    rw [@List.filterMap_congr _ _ _
      (fun x => if x = current_key rl r t then some (j + 1) else none) _
      (fun x _ => by by_cases hx : x = current_key rl r t <;> simp [hx])]
    exact filterMap_ite_sum _ _ _ (List.nodup_dedup _) hck

theorem nthDecision_eq (rl : Ratelimit) (r : Request) (t : Nat) (k : Nat)
    (happ : rl.should_ratelimit r = true) (hmin : 1 ≤ rl.minutes) :
    nthDecision rl r t k =
      (if rl.requests ≤ k - 1 then Decision.Deny else Decision.Allow) := by
  unfold nthDecision
  rw [(view_wrapper_store rl r _ t happ).2.2,
    windowTotal_storeAfter rl r t (k - 1) happ hmin]

/-! ## Claims -/

/-- C1 counterexample: under the spec example policy (windowMinutes = 2,
maxRequests = 20) the 20th same-minute request from one address is allowed
by the code, where the claim says it is denied. -/
theorem claim1_counterexample :
    nthDecision rlExample reqExample 1 20 = Decision.Allow := by
  rw [nthDecision_eq rlExample reqExample 1 20 rfl (by decide)]
  decide

/-- C1 (amended): starting from an empty cache, for a run of identical
applicable requests within one minute, each of the first `maxRequests`
requests is allowed and every request from the `maxRequests + 1`-st on is
denied; in particular with windowMinutes = 2, maxRequests = 20, requests
1..20 return Allow and request 21 returns Deny. -/
theorem claim1_amended (rl : Ratelimit) (r : Request) (t k : Nat)
    (happ : rl.should_ratelimit r = true) (hmin : 1 ≤ rl.minutes) (hk : 1 ≤ k) :
    (k ≤ rl.requests → nthDecision rl r t k = Decision.Allow) ∧
    (rl.requests < k → nthDecision rl r t k = Decision.Deny) := by
  rw [nthDecision_eq rl r t k happ hmin]
  constructor
  · intro h; rw [if_neg (by omega)]
  · intro h; rw [if_pos (by omega)]

/-- Witness for C1 (amended) at the spec example policy: request 20 is
allowed and request 21 is denied. -/
theorem claim1_witness :
    nthDecision rlExample reqExample 1 20 = Decision.Allow ∧
    nthDecision rlExample reqExample 1 21 = Decision.Deny :=
  ⟨(claim1_amended rlExample reqExample 1 20 rfl (by decide) (by decide)).1 (by decide),
   (claim1_amended rlExample reqExample 1 21 rfl (by decide) (by decide)).2 (by decide)⟩

/-- C2: the allow/deny decision compares `maxRequests` against the sum of
the window's counters as they stood before this request's own increment,
and in a same-minute run from an empty cache the k-th request is denied
exactly when the counts contributed by requests 1..k-1 reach the limit —
its own contribution is never included. -/
theorem claim2_decision_prestate (rl : Ratelimit) (r : Request) (store : Store) (t k : Nat)
    (happ : rl.should_ratelimit r = true) (hmin : 1 ≤ rl.minutes) (_hk : 1 ≤ k) :
    ((view_wrapper rl r store t).1 =
      (if rl.requests ≤ windowTotal rl r store t then Decision.Deny else Decision.Allow)) ∧
    (nthDecision rl r t k = Decision.Deny ↔ rl.requests ≤ k - 1) := by
  refine ⟨(view_wrapper_store rl r store t happ).2.2, ?_⟩
  rw [nthDecision_eq rl r t k happ hmin]
  by_cases h : rl.requests ≤ k - 1 <;> simp [h]

/-- Witness for C2 at the spec example policy with an empty cache and the
5th request of a run. -/
theorem claim2_witness :
    ((view_wrapper rlExample reqExample emptyStore 1).1 =
      (if rlExample.requests ≤ windowTotal rlExample reqExample emptyStore 1
        then Decision.Deny else Decision.Allow)) ∧
    (nthDecision rlExample reqExample 1 5 = Decision.Deny ↔ rlExample.requests ≤ 5 - 1) :=
  claim2_decision_prestate rlExample reqExample emptyStore 1 5 rfl (by decide) (by decide)

/-- C3: an applicable request increments exactly the current-minute bucket
counter by exactly 1 (creating it at 1 if absent) and leaves every other
stored counter unchanged, whether the request is allowed or denied. -/
theorem claim3_increments_current_bucket (rl : Ratelimit) (r : Request) (store : Store)
    (t : Nat) (happ : rl.should_ratelimit r = true) :
    (((view_wrapper rl r store t).2.1 (current_key rl r t)).map (fun p => p.1) =
      some (((store (current_key rl r t)).map (fun p => p.1)).getD 0 + 1)) ∧
    (∀ x, x ≠ current_key rl r t → (view_wrapper rl r store t).2.1 x = store x) := by
  constructor
  · rw [(view_wrapper_store rl r store t happ).1]
    unfold cache_incr cache_incr_core
    by_cases hb : rl.atomicBackend = true <;>
      cases store (current_key rl r t) <;> simp [hb]
  · intro x hx
    rw [(view_wrapper_store rl r store t happ).1]
    unfold cache_incr cache_incr_core
    by_cases hb : rl.atomicBackend = true <;> simp [hb, hx]

/-- Witness for C3 at the spec example policy, on an empty cache. -/
theorem claim3_witness :
    (((view_wrapper rlExample reqExample emptyStore 1).2.1
        (current_key rlExample reqExample 1)).map (fun p => p.1) =
      some (((emptyStore (current_key rlExample reqExample 1)).map (fun p => p.1)).getD 0 + 1)) ∧
    (∀ x, x ≠ current_key rlExample reqExample 1 →
      (view_wrapper rlExample reqExample emptyStore 1).2.1 x = emptyStore x) :=
  claim3_increments_current_bucket rlExample reqExample emptyStore 1 rfl

theorem view_wrapper_not_applicable (rl : Ratelimit) (r : Request) (store : Store)
    (t : Nat) (h : ¬ rl.should_ratelimit r = true) :
    view_wrapper rl r store t = (Decision.Allow, store, ([] : List CacheOp)) := by
  unfold view_wrapper
  rw [if_neg h]

/-- C4: a request for which the applicability predicate is false is
forwarded (Allow), no cache operation is issued, and the store is returned
unchanged. -/
theorem claim4_not_applicable (rl : Ratelimit) (r : Request) (store : Store) (t : Nat)
    (h : rl.should_ratelimit r = false) :
    view_wrapper rl r store t = (Decision.Allow, store, ([] : List CacheOp)) :=
  view_wrapper_not_applicable rl r store t (by simp [h])

/-- Witness for C4: a GET request under `ratelimit_post` is forwarded with
the store untouched and no cache operations logged. -/
theorem claim4_witness :
    view_wrapper (ratelimit_post_mk 2 20 none sha1Const) reqExample emptyStore 1 =
      (Decision.Allow, emptyStore, ([] : List CacheOp)) :=
  claim4_not_applicable (ratelimit_post_mk 2 20 none sha1Const) reqExample emptyStore 1 rfl

theorem string_append_cancel_left (a b c : String) (h : a ++ b = a ++ c) : b = c := by
  have hd := congrArg String.data h
  simp only [String.data_append] at hd
  exact string_data_inj _ _ (List.append_cancel_left hd)

/-- C5: for windowMinutes ≥ 1 — at any instant deep enough in the calendar
for the whole window (`minutes ≤ t + 1`) and, as Python `datetime`
guarantees, with year below 10000 — `keys_to_check` returns exactly
`minutes` pairwise distinct keys, the i-th being the current-bucket key
format applied at `t - i`. -/
theorem claim5_window_keys (rl : Ratelimit) (r : Request) (t : Nat)
    (_hmin : 1 ≤ rl.minutes) (ht : rl.minutes ≤ t + 1) (hy : yearOf t < 10000) :
    (keys_to_check rl r t).length = rl.minutes ∧
    (∀ i, i < rl.minutes →
      (keys_to_check rl r t)[i]? = some (mkKey rl.pfx (rl.key_extra r) (t - i))) ∧
    (keys_to_check rl r t).Nodup := by
  refine ⟨by simp [keys_to_check], ?_, ?_⟩
  · intro i hi
    simp [keys_to_check, List.getElem?_map, List.getElem?_range hi]
  · unfold keys_to_check
    refine List.Nodup.map_on ?_ (List.nodup_range _)
    intro i hi j hj hfeq
    rw [List.mem_range] at hi hj
    have hyi : yearOf (t - i) < 10000 := lt_of_le_of_lt (yearOf_mono _ _ (Nat.sub_le _ _)) hy
    have hyj : yearOf (t - j) < 10000 := lt_of_le_of_lt (yearOf_mono _ _ (Nat.sub_le _ _)) hy
    have := mkKey_inj_t rl.pfx (rl.key_extra r) _ _ hyi hyj hfeq
    omega

/-- Witness for C5 at the spec example policy (2-minute window) at t = 1. -/
theorem claim5_witness :
    (keys_to_check rlExample reqExample 1).length = rlExample.minutes ∧
    (∀ i, i < rlExample.minutes →
      (keys_to_check rlExample reqExample 1)[i]? =
        some (mkKey rlExample.pfx (rlExample.key_extra reqExample) (1 - i))) ∧
    (keys_to_check rlExample reqExample 1).Nodup :=
  claim5_window_keys rlExample reqExample 1 (by decide) (by decide) (by decide)

/-- C6: `ratelimit_post` key derivation is deterministic and depends on the
designated field's value only through its hash: equal address and equal
hash give equal derived keys (hence equal bucket keys at any instant); and
when the field is configured, different hashes give different keys — the
raw value enters the key only through the digest. -/
theorem claim6_key_hash_only (kf : Option String) (hash : String → String)
    (r1 r2 : Request) (p : String) (t : Nat) :
    (r1.remoteAddr = r2.remoteAddr →
      (∀ f, kf = some f →
        hash (((r1.postData).lookup f).getD "") = hash (((r2.postData).lookup f).getD "")) →
      key_extra_post kf hash r1 = key_extra_post kf hash r2 ∧
      mkKey p (key_extra_post kf hash r1) t = mkKey p (key_extra_post kf hash r2) t) ∧
    (∀ f, kf = some f → f ≠ "" → r1.remoteAddr = r2.remoteAddr →
      hash (((r1.postData).lookup f).getD "") ≠ hash (((r2.postData).lookup f).getD "") →
      key_extra_post kf hash r1 ≠ key_extra_post kf hash r2) := by
  constructor
  · intro haddr hval
    have he : key_extra_post kf hash r1 = key_extra_post kf hash r2 := by
      unfold key_extra_post
      rw [haddr]
      cases kf with
      | none => rfl
      | some f =>
        by_cases hf : f = ""
        · simp [hf]
        · simp only [hf, if_false]
          rw [hval f rfl]
    exact ⟨he, by rw [he]⟩
  · intro f hkf hne haddr hdiff hcontra
    apply hdiff
    subst hkf
    unfold key_extra_post at hcontra
    rw [haddr] at hcontra
    simp only [hne, if_false] at hcontra
    have h1 := string_append_cancel_left _ _ _ hcontra
    exact string_append_cancel_left _ _ _ h1

/-- Witness for C6: same address and username, extra unrelated form field —
equal keys; different usernames under an injective stand-in hash —
different keys. -/
theorem claim6_witness :
    key_extra_post (some "username") (fun s => s) reqPost =
      key_extra_post (some "username") (fun s => s) reqPost2 ∧
    key_extra_post (some "username") (fun s => s) reqPost ≠
      key_extra_post (some "username") (fun s => s)
        { method := "POST", remoteAddr := some "1.2.3.4",
          postData := [("username", "bob")] } :=
  ⟨((claim6_key_hash_only (some "username") (fun s => s) reqPost reqPost2 "ratelimit-" 1).1
      rfl (fun f hf => by cases hf; rfl)).1,
   (claim6_key_hash_only (some "username") (fun s => s) reqPost
      { method := "POST", remoteAddr := some "1.2.3.4",
        postData := [("username", "bob")] } "ratelimit-" 1).2
      "username" rfl (by decide) rfl (by decide)⟩

/-- C7 counterexample: with key_field = "username" configured, a POST that
carries no username still gets "-" plus the digest of the empty string
appended; the derived key is not the bare address as the claim states. -/
theorem claim7_counterexample :
    key_extra_post (some "username") sha1Const reqPostMissing =
      "1.2.3.4-da39a3ee5e6b4b0d3255bfef95601890afd80709" ∧
    key_extra_post (some "username") sha1Const reqPostMissing ≠ "1.2.3.4" := by
  constructor
  · decide
  · decide

/-- C7 (amended): whenever key_field is configured (non-empty, i.e. truthy),
the "-" plus digest component is always appended, a missing field value
being treated as the empty string and hashed — never an error; only an
unset key_field contributes nothing beyond the address. -/
theorem claim7_amended (kf : Option String) (hash : String → String) (r : Request) :
    (∀ f, kf = some f → f ≠ "" →
      key_extra_post kf hash r =
        (r.remoteAddr).getD "" ++ ("-" ++ hash (((r.postData).lookup f).getD ""))) ∧
    (kf = none → key_extra_post kf hash r = (r.remoteAddr).getD "") := by
  constructor
  · intro f hf hne
    subst hf
    simp [key_extra_post, hne]
  · intro hf
    subst hf
    simp [key_extra_post]

/-- Witness for C7 (amended): a POST carrying username alice, with and
without key_field configured. -/
theorem claim7_witness :
    key_extra_post (some "username") sha1Const reqPost =
      "1.2.3.4" ++ ("-" ++ sha1Const "alice") ∧
    key_extra_post none sha1Const reqPost = "1.2.3.4" :=
  ⟨(claim7_amended (some "username") sha1Const reqPost).1 "username" rfl (by decide),
   (claim7_amended none sha1Const reqPost).2 rfl⟩

/-- C8: in `ratelimit_post_noip` with key_field configured (truthy), every
applicable POST request fails with the NameError — the name `sha` is
unresolved, only hashlib is imported — raised during the counter fetch,
before any cache access, so the request is neither rate-limit-checked nor
forwarded. -/
theorem claim8_noip_name_error (minutes requests : Nat) (p f : String) (atomic : Bool)
    (r : Request) (store : Store) (t : Nat) (hf : f ≠ "") (hpost : r.method = "POST") :
    view_wrapper_noip minutes requests p (some f) atomic r store t =
      Except.error "NameError: name sha is not defined" := by
  unfold view_wrapper_noip key_extra_noip
  rw [if_pos (by simp [hpost])]
  simp [hf]

/-- Witness for C8: `ratelimit_post_noip(minutes=3, requests=3,
key_field='username')` on a POST request. -/
theorem claim8_witness :
    view_wrapper_noip 3 3 "ratelimit-" (some "username") true reqPost emptyStore 1 =
      Except.error "NameError: name sha is not defined" :=
  claim8_noip_name_error 3 3 "ratelimit-" "username" true reqPost emptyStore 1
    (by decide) rfl

/-- C9 counterexample: constructing with maxRequests = 0 (< 1) does not
fail — `__init__` only stores the options — and yields an instance whose
requests attribute is 0. -/
theorem claim9_counterexample :
    (ratelimit_init { requests := some 0 }).requests = 0 := rfl

/-- C9 (amended): construction performs no validation, so a policy with
maxRequests < 1 is accepted; the misconfiguration only takes effect at
request time, where maxRequests = 0 denies every applicable request. -/
theorem claim9_amended (opts : Options) (r : Request) (store : Store) (t : Nat)
    (hreq : opts.requests = some 0) :
    (ratelimit_init opts).requests = 0 ∧
    (view_wrapper (ratelimit_init opts) r store t).1 = Decision.Deny := by
  have h0 : (ratelimit_init opts).requests = 0 := by simp [ratelimit_init, hreq]
  refine ⟨h0, ?_⟩
  rw [(view_wrapper_store (ratelimit_init opts) r store t rfl).2.2, h0]
  simp

/-- Witness for C9 (amended). -/
theorem claim9_witness :
    (ratelimit_init { requests := some 0 }).requests = 0 ∧
    (view_wrapper (ratelimit_init { requests := some 0 }) reqExample emptyStore 1).1 =
      Decision.Deny :=
  claim9_amended { requests := some 0 } reqExample emptyStore 1 rfl

/-- C10: every write the limiter issues — the `add` of the atomic path as
well as the `set` of the fallback path — passes expiry exactly
`(minutes + 1) * 60` seconds, and nothing is ever deleted: a key absent
after the call was already absent before it. -/
theorem claim10_write_expiry (rl : Ratelimit) (r : Request) (store : Store) (t : Nat)
    (x : String) (hnone : (view_wrapper rl r store t).2.1 x = none) :
    Ratelimit.expire_after rl = (rl.minutes + 1) * 60 ∧
    writeExpiries ((view_wrapper rl r store t).2.2) =
      List.replicate (writeExpiries ((view_wrapper rl r store t).2.2)).length
        ((rl.minutes + 1) * 60) ∧
    store x = none := by
  by_cases happ : rl.should_ratelimit r = true
  · obtain ⟨hs, ho, _⟩ := view_wrapper_store rl r store t happ
    refine ⟨rfl, ?_, ?_⟩
    · rw [ho]
      unfold cache_incr cache_incr_core
      by_cases hb : rl.atomicBackend = true <;>
        simp [hb, writeExpiries, Ratelimit.expire_after, List.replicate]
    · rw [hs] at hnone
      unfold cache_incr cache_incr_core at hnone
      by_cases hx : x = current_key rl r t
      · exfalso
        by_cases hb : rl.atomicBackend = true <;> simp [hb, hx] at hnone
      · by_cases hb : rl.atomicBackend = true <;> simpa [hb, hx] using hnone
  · rw [view_wrapper_not_applicable rl r store t happ] at hnone
    rw [view_wrapper_not_applicable rl r store t happ]
    exact ⟨rfl, rfl, hnone⟩

/-- Witness for C10 at the spec example policy on an empty cache, probing a
key that is absent after the call. -/
theorem claim10_witness :
    Ratelimit.expire_after rlExample = (rlExample.minutes + 1) * 60 ∧
    writeExpiries ((view_wrapper rlExample reqExample emptyStore 1).2.2) =
      List.replicate (writeExpiries ((view_wrapper rlExample reqExample emptyStore 1).2.2)).length
        ((rlExample.minutes + 1) * 60) ∧
    emptyStore "unrelated-key" = none :=
  claim10_write_expiry rlExample reqExample emptyStore 1 "unrelated-key" (by decide)

end Ratelimitcache
